import Mathlib

/-!
Shallow embedding of the QuickJS binary-code executor repository
(`QjsBinaryCodeExecutor.cpp/.h`, `qjs_bc.c`): the container parser, the
module registry, the worker-context factory, the execution lifecycle and
the exception-extraction routine, together with theorems settling the
specification claims about them.

Files are modelled as `Option (List Nat)`: `none` is a file that cannot
be opened, `some bs` is a file whose byte contents are `bs` (each entry
one byte, `< 256` for real files).  The engine (QuickJS) is opaque: its
observable reactions (runtime/context creation success, evaluation
outcomes, the pending exception value) are parameters, and the
orchestration code is modelled as a function producing the ordered list
of externally visible events (engine calls, hook invocations, error
reports), exactly following the source.
-/

namespace Qjs

/-- One parsed module record: `struct Module` in `QjsBinaryCodeExecutor.h`
(`load_only : bool`, `data : std::vector<uint8_t>`), identical to
`ModuleInfo` in `qjs_bc.c`. -/
structure Module where
  load_only : Bool
  data : List Nat
deriving DecidableEq, Repr

/-- Outcome of one `loadModulesFromFile` call, distinguishing the four
early-return paths of the source from the normal EOF exit. -/
inductive ParseResult
  | ok
  | fileOpenError
  | headerTruncated
  | badLength
  | payloadTruncated
deriving DecidableEq, Repr

/-- `constexpr uint64_t MAX_MODULE_SIZE = 100 * 1024 * 1024` from
`QjsBinaryCodeExecutor.cpp` line 58. -/
def MAX_MODULE_SIZE : Nat := 100 * 1024 * 1024

/-- Value of a little-endian byte sequence, as obtained by `fread` into a
`uint64_t` on the (little-endian) host. -/
def leVal (bs : List Nat) : Nat :=
  bs.foldr (fun b acc => b + 256 * acc) 0

/-- The 8 little-endian bytes of `n` (truncated to 64 bits), i.e. the byte
image of a `uint64_t` holding `n`, used to serialize a record's length
field. -/
def encodeU64 (n : Nat) : List Nat :=
  [n % 256, n / 256 % 256, n / 256 ^ 2 % 256, n / 256 ^ 3 % 256,
   n / 256 ^ 4 % 256, n / 256 ^ 5 % 256, n / 256 ^ 6 % 256, n / 256 ^ 7 % 256]

/-- The `while (true)` loop of `loadModulesFromFile`
(`QjsBinaryCodeExecutor.cpp` lines 39-78) over the remaining input bytes,
with `acc` the modules already pushed onto `modules_`:
read one flag byte (EOF here is a clean stop); read an 8-byte length
(short read: incomplete-header error); reject length `0` or
`> MAX_MODULE_SIZE`; read `length` payload bytes (short read:
incomplete-data error); push `{load_only != 0, data}` and continue.
Every early return leaves `acc` as it stands (no rollback). -/
def parseLoop : List Nat → List Module → (List Module × ParseResult)
  | [], acc => (acc, ParseResult.ok)
  | flag :: rest, acc =>
    if rest.length < 8 then (acc, ParseResult.headerTruncated)
    else
      let len := leVal (rest.take 8)
      let body := rest.drop 8
      if len = 0 ∨ MAX_MODULE_SIZE < len then (acc, ParseResult.badLength)
      else if body.length < len then (acc, ParseResult.payloadTruncated)
      else parseLoop (body.drop len) (acc ++ [⟨flag != 0, body.take len⟩])
termination_by bs _ => bs.length
decreasing_by
  simp only [List.length_drop, List.length_cons]
  omega

/-- `QjsBinaryCodeExecutor::loadModulesFromFile`
(`QjsBinaryCodeExecutor.cpp` lines 27-82): on `fopen` failure it reports
and returns with `modules_` untouched; otherwise it clears `modules_`
(`modules_.clear()` runs only after the open succeeded) and runs the
record loop.  Input: the file and the previous `modules_` contents;
output: the new `modules_` contents and the outcome. -/
def loadModulesFromFile : Option (List Nat) → List Module → (List Module × ParseResult)
  | none, prev => (prev, ParseResult.fileOpenError)
  | some bs, _prev => parseLoop bs []

/-- The loading `while (1)` loop of `load_all_modules` in `qjs_bc.c`
(lines 46-93): same record format, but with no length validation at all
(a zero or oversized length is accepted as long as the payload bytes are
present), and the `error:` label frees every module parsed so far and
resets `g_modules`/`g_module_count`, so an error returns the empty list.
The boolean is `true` for the success return (`0`), `false` for `-1`. -/
def cParseLoop : List Nat → List Module → (List Module × Bool)
  | [], acc => (acc, true)
  | flag :: rest, acc =>
    if rest.length < 8 then ([], false)
    else
      let len := leVal (rest.take 8)
      let body := rest.drop 8
      if body.length < len then ([], false)
      else cParseLoop (body.drop len) (acc ++ [⟨flag != 0, body.take len⟩])
termination_by bs _ => bs.length
decreasing_by
  simp only [List.length_drop, List.length_cons]
  omega

/-- Serialization of one module in the container record format consumed by
both parsers: flag byte (1 = preload-only, 0 = entry), 8-byte
little-endian length, payload. -/
def encodeModule (m : Module) : List Nat :=
  (if m.load_only then 1 else 0) :: (encodeU64 m.data.length ++ m.data)

/-- Serialization of a module sequence: concatenated records. -/
def encodeModules (ms : List Module) : List Nat :=
  (ms.map encodeModule).flatten

/-- The byte stream `t` starts a record on which `parseLoop` hits a hard
error: a truncated length field, an invalid length, or (for an in-bounds
length) a payload extending past the end of the stream. -/
def firstRecordFails : List Nat → Bool
  | [] => false
  | _flag :: rest =>
    if rest.length < 8 then true
    else
      let len := leVal (rest.take 8)
      if len = 0 ∨ MAX_MODULE_SIZE < len then true
      else decide ((rest.drop 8).length < len)

/-- The pending exception value as observed through the engine's query
interface: `isError` is `JS_IsError`, `display` is the `JS_ToCString`
coercion of the value itself (`none` when coercion fails), and
`name`/`message`/`stack` are the coercions of the corresponding
properties (`none` when the coercion returns null). -/
structure ExcValue where
  isError : Bool
  display : Option String
  name : Option String
  message : Option String
  stack : Option String
deriving DecidableEq, Repr

/-- Tags for the host/container-level error messages the executor can
emit (through `reportError` or direct stream writes). -/
inductive ErrTag
  | fileOpen
  | runtimeCreate
  | contextCreate
  | noEntry
deriving DecidableEq, Repr

/-- Externally visible events of the orchestration code, in program
order: engine API calls, hook invocations, callback invocations and
diagnostic-stream writes. -/
inductive Event
  | errorCb (tag : ErrTag)
  | stderrWrite (tag : ErrTag)
  | jsErrorCb (name message stack : String)
  | parseHeaderErr
  | parseBadLenErr
  | parseDataErr
  | newRuntime
  | afterRuntimeCreateCb
  | initHandlers
  | registerWorkerCb
  | setModuleLoader
  | newContext
  | evalBinary (data : List Nat) (loadOnly : Bool)
  | afterContextCreateCb
  | addHelpers
  | evalSource (code : List Nat)
  | eventLoop
  | afterExecuteCb
  | beforeReleaseCb
  | dumpError
  | freeHandlers
  | freeContext
  | freeRuntime
deriving DecidableEq, Repr

/-- `ExecutionMode` from `QjsBinaryCodeExecutor.h`. -/
inductive ExecutionMode
  | BINARY
  | JS
deriving DecidableEq, Repr

/-- `QjsBinaryCodeExecutor::reportError` (lines 156-162): invoke the
generic error callback when registered, else write the message to
stderr. -/
def reportError (errCb : Bool) (tag : ErrTag) : List Event :=
  if errCb then [Event.errorCb tag] else [Event.stderrWrite tag]

/-- `QjsBinaryCodeExecutor::getExceptionStack` (lines 119-153) as the
list of callback invocations it performs: fetch the exception, coerce it
(failed coercion: free and return with no event); when the value is an
Error object, fetch `name`/`message`/`stack`, coerce each (null becomes
the empty string) and invoke the structured `onJsError` callback when
registered.  A non-Error exception produces no event at all: the
function body only acts inside the `JS_IsError` branch. -/
def getExceptionStack (jsErrCb : Bool) (exc : ExcValue) : List Event :=
  match exc.display with
  | none => []
  | some _ =>
    if exc.isError then
      if jsErrCb then
        [Event.jsErrorCb (exc.name.getD "") (exc.message.getD "") (exc.stack.getD "")]
      else []
    else []

/-- `QjsBinaryCodeExecutor::createCustomContext` (lines 94-115) as the
event trace of one invocation: `JS_NewContext` (outcome `ctxOk`); on
success, in BINARY mode, `js_std_eval_binary_bool(ctx, mod.data, size,
true)` for every module with `load_only` set, in registry order; then
the `afterContextCreate` callback when registered. -/
def createCustomContextTrace (ctxOk : Bool) (mode : ExecutionMode)
    (modules : List Module) (accCb : Bool) : List Event :=
  Event.newContext ::
    (if ctxOk then
      (if mode = ExecutionMode.BINARY then
        (modules.filter (fun m => m.load_only)).map
          (fun m => Event.evalBinary m.data true)
      else [])
      ++ (if accCb then [Event.afterContextCreateCb] else [])
    else [])

/-- `QjsBinaryCodeExecutor::readFileToString` (lines 271-301): `fopen`
failure returns the empty string; a file of size `<= 0` returns the
empty string; otherwise the file's contents. -/
def readFileToString : Option (List Nat) → List Nat
  | none => []
  | some bs => if bs.length = 0 then [] else bs

/-- Diagnostic-stream/report events of one `loadModulesFromFile` call:
`reportError` on `fopen` failure, else the `std::cerr`/`std::cout` write
matching the loop's failure exit, if any. -/
def loadEvents (errCb : Bool) : Option (List Nat) → List Event
  | none => reportError errCb ErrTag.fileOpen
  | some bs =>
    match (parseLoop bs []).2 with
    | ParseResult.ok => []
    | ParseResult.fileOpenError => []
    | ParseResult.headerTruncated => [Event.parseHeaderErr]
    | ParseResult.badLength => [Event.parseBadLenErr]
    | ParseResult.payloadTruncated => [Event.parseDataErr]

/-- The entry-evaluation events of `execute()`'s SourceText branch
(lines 208-228): `JS_Eval` on the text read from the entry file, then —
when `JS_HasException` holds, or the evaluation result is a
rejected/errored promise — one `getExceptionStack` pass. -/
def sourceEvalEvents (jsErrCb : Bool) (entryData : Option (List Nat))
    (hasExc promiseRej : Bool) (exc : ExcValue) : List Event :=
  Event.evalSource (readFileToString entryData) ::
    (if hasExc then getExceptionStack jsErrCb exc
     else if promiseRej then getExceptionStack jsErrCb exc
     else [])

/-- The entry-evaluation events of `execute()`'s BINARY branch
(lines 230-247): evaluate every module with `load_only` clear, in
registry order, passing `module.load_only` (i.e. `false`) as the
evaluation flag; a failed evaluation runs `getExceptionStack` but does
not stop the loop; when no entry module exists, `reportError`. -/
def binaryEvalEvents (errCb jsErrCb : Bool) (evalBinOk : List Nat → Bool)
    (exc : ExcValue) (modules : List Module) : List Event :=
  ((modules.filter (fun m => !m.load_only)).map
    (fun m =>
      Event.evalBinary m.data m.load_only ::
        (if evalBinOk m.data then [] else getExceptionStack jsErrCb exc))).flatten
  ++ (if modules.filter (fun m => !m.load_only) = [] then
        reportError errCb ErrTag.noEntry
      else [])

/-- `QjsBinaryCodeExecutor::execute` (lines 165-261) as an event trace.
Inputs: the configured mode, the entry file (shared by the BINARY-mode
container load and the JS-mode source read), the previous `modules_`
contents, the registration state of each hook/callback slot, and the
opaque engine behaviour (`rtOk`/`ctxOk` creation outcomes, per-payload
bytecode evaluation outcomes, source-evaluation exception state, the
pending exception value).  Follows the source line by line; note that
the `js_std_set_worker_new_context_func` call of step 2 is commented out
in the source (line 193), so no `registerWorkerCb` event is ever
emitted. -/
def executeTrace (mode : ExecutionMode) (entryData : Option (List Nat))
    (prev : List Module) (rtOk ctxOk : Bool)
    (hookRC hookCC hookAE errCb jsErrCb : Bool)
    (evalBinOk : List Nat → Bool) (hasExc promiseRej : Bool)
    (exc : ExcValue) : List Event :=
  (if mode = ExecutionMode.BINARY then loadEvents errCb entryData else [])
  ++ Event.newRuntime ::
    (if rtOk then
      (if hookRC then [Event.afterRuntimeCreateCb] else [])
      ++ [Event.initHandlers, Event.setModuleLoader]
      ++ createCustomContextTrace ctxOk mode
          (if mode = ExecutionMode.BINARY then
            (loadModulesFromFile entryData prev).1
          else prev) hookCC
      ++ (if ctxOk then
            (if mode = ExecutionMode.JS then
              sourceEvalEvents jsErrCb entryData hasExc promiseRej exc
            else
              binaryEvalEvents errCb jsErrCb evalBinOk exc
                (if mode = ExecutionMode.BINARY then
                  (loadModulesFromFile entryData prev).1
                else prev))
            ++ [Event.eventLoop]
            ++ (if hookAE then [Event.afterExecuteCb] else [])
          else reportError errCb ErrTag.contextCreate)
    else reportError errCb ErrTag.runtimeCreate)

/-- `QjsBinaryCodeExecutor::~QjsBinaryCodeExecutor` (lines 16-24): the
`beforeRelease` callback when registered (regardless of handle state),
then `JS_FreeContext` when `context_` is non-null, then `JS_FreeRuntime`
when `runtime_` is non-null. -/
def destructorTrace (hookBR haveCtx haveRt : Bool) : List Event :=
  (if hookBR then [Event.beforeReleaseCb] else [])
  ++ (if haveCtx then [Event.freeContext] else [])
  ++ (if haveRt then [Event.freeRuntime] else [])

/-- One full run: `execute()` followed by destruction of the executor.
`context_` was assigned only when the runtime and the context were both
created; `runtime_` only when the runtime was. -/
def fullRunTrace (mode : ExecutionMode) (entryData : Option (List Nat))
    (prev : List Module) (rtOk ctxOk : Bool)
    (hookRC hookCC hookAE hookBR errCb jsErrCb : Bool)
    (evalBinOk : List Nat → Bool) (hasExc promiseRej : Bool)
    (exc : ExcValue) : List Event :=
  executeTrace mode entryData prev rtOk ctxOk hookRC hookCC hookAE errCb jsErrCb
      evalBinOk hasExc promiseRej exc
  ++ destructorTrace hookBR (rtOk && ctxOk) rtOk

/-- `JS_NewCustomContext` from `qjs_bc.c` (lines 113-128) as an event
trace: `JS_NewContext`, then on success every `load_only` module is
evaluated with flag `true`, in order.  (No hook: the C driver has no
`afterContextCreate` slot.) -/
def cNewCustomContextTrace (ctxOk : Bool) (modules : List Module) : List Event :=
  Event.newContext ::
    (if ctxOk then
      (modules.filter (fun m => m.load_only)).map
        (fun m => Event.evalBinary m.data true)
    else [])

/-- `main` from `qjs_bc.c` (lines 180-256) after `load_all_modules`, as
an event trace over the loaded module list: when loading failed, `main`
returns before any engine call; otherwise `JS_NewRuntime`, then — on
success — `js_std_set_worker_new_context_func(JS_NewCustomContext)`,
`js_std_init_handlers`, `JS_SetModuleLoaderFunc`, the main-context
creation through `JS_NewCustomContext`, `js_std_add_helpers`, the entry
loop (each non-`load_only` module evaluated with flag `0`, printing the
exception text on failure), the event loop, `js_std_dump_error` on a
nonzero loop status, and the teardown calls. -/
def cMainTrace (loadOk : Bool) (modules : List Module) (rtOk ctxOk : Bool)
    (evalBinOk : List Nat → Bool) (loopRet : Int) : List Event :=
  if !loadOk then []
  else
    Event.newRuntime ::
      (if rtOk then
        Event.registerWorkerCb :: Event.initHandlers :: Event.setModuleLoader ::
          cNewCustomContextTrace ctxOk modules
        ++ (if ctxOk then
              Event.addHelpers ::
                ((modules.filter (fun m => !m.load_only)).map
                  (fun m =>
                    Event.evalBinary m.data false ::
                      (if evalBinOk m.data then [] else [Event.dumpError]))).flatten
              ++ (if modules.filter (fun m => !m.load_only) = [] then
                    [Event.stderrWrite ErrTag.noEntry]
                  else [])
              ++ [Event.eventLoop]
              ++ (if loopRet ≠ 0 then [Event.dumpError] else [])
              ++ [Event.freeHandlers, Event.freeContext, Event.freeRuntime]
            else [Event.freeRuntime])
      else [])

/-! ### Parser lemmas -/

theorem encodeU64_length (n : Nat) : (encodeU64 n).length = 8 := rfl

theorem leVal_encodeU64 (n : Nat) : leVal (encodeU64 n) = n % 2 ^ 64 := by
  simp only [leVal, encodeU64, List.foldr]
  norm_num
  omega

/-- One in-bounds record at the head of the stream is consumed and
appended; parsing continues on the remainder. -/
theorem parseLoop_record_step (flag len : Nat) (payload rest : List Nat)
    (acc : List Module) (hlen : payload.length = len) (h64 : len < 2 ^ 64)
    (hpos : 0 < len) (hmax : len ≤ MAX_MODULE_SIZE) :
    parseLoop (flag :: (encodeU64 len ++ (payload ++ rest))) acc
      = parseLoop rest (acc ++ [⟨flag != 0, payload⟩]) := by
  have htake : (encodeU64 len ++ (payload ++ rest)).take 8 = encodeU64 len :=
    List.take_left' (encodeU64_length len)
  have hdrop : (encodeU64 len ++ (payload ++ rest)).drop 8 = payload ++ rest :=
    List.drop_left' (encodeU64_length len)
  have h8 : ¬ (encodeU64 len ++ (payload ++ rest)).length < 8 := by
    simp [encodeU64]
  have htake2 : (payload ++ rest).take len = payload := List.take_left' hlen
  have hdrop2 : (payload ++ rest).drop len = rest := List.drop_left' hlen
  have hval : leVal ((encodeU64 len ++ (payload ++ rest)).take 8) = len := by
    rw [htake, leVal_encodeU64, Nat.mod_eq_of_lt h64]
  have hbad : ¬ (len = 0 ∨ MAX_MODULE_SIZE < len) := by omega
  have hshort : ¬ (payload ++ rest).length < len := by
    simp [List.length_append, hlen]
  simp only [parseLoop, hval, hdrop, htake2, hdrop2, if_neg h8, if_neg hbad,
    if_neg hshort]

/-- A serialized module with in-bounds payload length is parsed back
exactly, and parsing continues on the remainder of the stream. -/
theorem parseLoop_encodeModule (m : Module) (t : List Nat) (acc : List Module)
    (hpos : 0 < m.data.length) (hmax : m.data.length ≤ MAX_MODULE_SIZE) :
    parseLoop (encodeModule m ++ t) acc = parseLoop t (acc ++ [m]) := by
  have h64 : m.data.length < 2 ^ 64 :=
    lt_of_le_of_lt hmax (by norm_num [MAX_MODULE_SIZE])
  have hstep := parseLoop_record_step (if m.load_only then 1 else 0)
    m.data.length m.data t acc rfl h64 hpos hmax
  have hmod : (⟨(if m.load_only then 1 else 0) != 0, m.data⟩ : Module) = m := by
    cases m with
    | mk lo d => cases lo <;> simp
  rw [encodeModule, List.cons_append, List.append_assoc] at *
  rw [hstep, hmod]

/-- A serialized module sequence with in-bounds payload lengths is parsed
back exactly, and parsing continues on the remainder of the stream. -/
theorem parseLoop_encodeModules (ms : List Module) (t : List Nat)
    (acc : List Module)
    (hval : ∀ m ∈ ms, 0 < m.data.length ∧ m.data.length ≤ MAX_MODULE_SIZE) :
    parseLoop (encodeModules ms ++ t) acc = parseLoop t (acc ++ ms) := by
  induction ms generalizing acc with
  | nil => simp [encodeModules]
  | cons m ms ih =>
    have hm := hval m (List.mem_cons_self m ms)
    rw [encodeModules, List.map_cons, List.flatten_cons, List.append_assoc,
      parseLoop_encodeModule m _ acc hm.1 hm.2]
    rw [show (ms.map encodeModule).flatten = encodeModules ms from rfl,
      ih (acc ++ [m]) (fun x hx => hval x (List.mem_cons_of_mem m hx))]
    simp

/-- `parseLoop` only ever appends to its accumulator: the result with
accumulator `acc` is the result with the empty accumulator, prefixed by
`acc` (early error returns included — the C++ parser never rolls back). -/
theorem parseLoop_shift (bs : List Nat) (acc : List Module) :
    parseLoop bs acc = (acc ++ (parseLoop bs []).1, (parseLoop bs []).2) := by
  suffices H : ∀ n bs acc, List.length bs ≤ n →
      parseLoop bs acc = (acc ++ (parseLoop bs []).1, (parseLoop bs []).2) from
    H bs.length bs acc le_rfl
  intro n
  induction n with
  | zero =>
    intro bs acc h
    have : bs = [] := List.eq_nil_of_length_eq_zero (Nat.le_zero.mp h)
    subst this
    simp [parseLoop]
  | succ n ih =>
    intro bs acc h
    match bs with
    | [] => simp [parseLoop]
    | flag :: rest =>
      by_cases h8 : rest.length < 8
      · simp [parseLoop, h8]
      · by_cases hbad : leVal (rest.take 8) = 0 ∨ MAX_MODULE_SIZE < leVal (rest.take 8)
        · simp [parseLoop, h8, hbad]
        · by_cases hshort : (rest.drop 8).length < leVal (rest.take 8)
          · simp only [parseLoop, if_neg h8, if_neg hbad, if_pos hshort]
            simp
          · have hrecLen : ((rest.drop 8).drop (leVal (rest.take 8))).length ≤ n := by
              simp only [List.length_drop]
              simp only [List.length_cons] at h
              omega
            have e1 := ih ((rest.drop 8).drop (leVal (rest.take 8)))
              (acc ++ [⟨flag != 0, (rest.drop 8).take (leVal (rest.take 8))⟩]) hrecLen
            have e2 := ih ((rest.drop 8).drop (leVal (rest.take 8)))
              ([⟨flag != 0, (rest.drop 8).take (leVal (rest.take 8))⟩]) hrecLen
            simp only [parseLoop, if_neg h8, if_neg hbad, if_neg hshort,
              List.nil_append]
            rw [e1, e2]
            simp

/-- `cParseLoop` appends to its accumulator on success and discards
everything on failure (the `error:` label of `load_all_modules` frees and
resets the global module array). -/
theorem cParseLoop_shift (bs : List Nat) (acc : List Module) :
    cParseLoop bs acc =
      if (cParseLoop bs []).2 then (acc ++ (cParseLoop bs []).1, true)
      else ([], false) := by
  suffices H : ∀ n bs acc, List.length bs ≤ n →
      cParseLoop bs acc =
        (if (cParseLoop bs []).2 then (acc ++ (cParseLoop bs []).1, true)
         else ([], false)) from
    H bs.length bs acc le_rfl
  intro n
  induction n with
  | zero =>
    intro bs acc h
    have : bs = [] := List.eq_nil_of_length_eq_zero (Nat.le_zero.mp h)
    subst this
    simp [cParseLoop]
  | succ n ih =>
    intro bs acc h
    match bs with
    | [] => simp [cParseLoop]
    | flag :: rest =>
      by_cases h8 : rest.length < 8
      · simp [cParseLoop, h8]
      · by_cases hshort : (rest.drop 8).length < leVal (rest.take 8)
        · simp only [cParseLoop, if_neg h8, if_pos hshort]
          simp
        · have hrecLen : ((rest.drop 8).drop (leVal (rest.take 8))).length ≤ n := by
            simp only [List.length_drop]
            simp only [List.length_cons] at h
            omega
          have e1 := ih ((rest.drop 8).drop (leVal (rest.take 8)))
            (acc ++ [⟨flag != 0, (rest.drop 8).take (leVal (rest.take 8))⟩]) hrecLen
          have e2 := ih ((rest.drop 8).drop (leVal (rest.take 8)))
            ([⟨flag != 0, (rest.drop 8).take (leVal (rest.take 8))⟩]) hrecLen
          simp only [cParseLoop, if_neg h8, if_neg hshort, List.nil_append]
          rw [e1, e2]
          by_cases hres : (cParseLoop ((rest.drop 8).drop (leVal (rest.take 8))) []).2 = true
          · rw [hres]
            simp
          · rw [Bool.not_eq_true] at hres
            rw [hres]
            simp

/-- Acceptance equivalence of the two parsers: the C++ parser accepts a
stream with module list `ms` exactly when the C parser accepts it with
the same list and every parsed payload length is in
`(0, MAX_MODULE_SIZE]` (the C parser performs no length validation). -/
theorem parse_equiv (bs : List Nat) (ms : List Module) :
    parseLoop bs [] = (ms, ParseResult.ok) ↔
      (cParseLoop bs [] = (ms, true) ∧
        ∀ m ∈ ms, 0 < m.data.length ∧ m.data.length ≤ MAX_MODULE_SIZE) := by
  suffices H : ∀ n bs, List.length bs ≤ n → ∀ ms : List Module,
      parseLoop bs [] = (ms, ParseResult.ok) ↔
        (cParseLoop bs [] = (ms, true) ∧
          ∀ m ∈ ms, 0 < m.data.length ∧ m.data.length ≤ MAX_MODULE_SIZE) from
    H bs.length bs le_rfl ms
  intro n
  induction n with
  | zero =>
    intro bs h ms
    have hbs : bs = [] := List.eq_nil_of_length_eq_zero (Nat.le_zero.mp h)
    subst hbs
    constructor
    · intro hp
      have hms : ms = [] := by
        have := congrArg Prod.fst hp
        simpa [parseLoop] using this.symm
      subst hms
      exact ⟨by simp [cParseLoop], by simp⟩
    · rintro ⟨hc, -⟩
      have hms : ms = [] := by
        have := congrArg Prod.fst hc
        simpa [cParseLoop] using this.symm
      subst hms
      simp [parseLoop]
  | succ n ih =>
    intro bs h ms
    match bs with
    | [] =>
      constructor
      · intro hp
        have hms : ms = [] := by
          have := congrArg Prod.fst hp
          simpa [parseLoop] using this.symm
        subst hms
        exact ⟨by simp [cParseLoop], by simp⟩
      · rintro ⟨hc, -⟩
        have hms : ms = [] := by
          have := congrArg Prod.fst hc
          simpa [cParseLoop] using this.symm
        subst hms
        simp [parseLoop]
    | flag :: rest =>
      by_cases h8 : rest.length < 8
      · constructor
        · intro hp
          simp [parseLoop, h8, Prod.ext_iff] at hp
        · rintro ⟨hc, -⟩
          simp [cParseLoop, h8, Prod.ext_iff] at hc
      · by_cases hshort : (rest.drop 8).length < leVal (rest.take 8)
        · have hshort' : rest.length - 8 < leVal (rest.take 8) := by
            simpa [List.length_drop] using hshort
          constructor
          · intro hp
            by_cases hbad : leVal (rest.take 8) = 0 ∨
                MAX_MODULE_SIZE < leVal (rest.take 8)
            · simp [parseLoop, h8, hbad, Prod.ext_iff] at hp
            · simp [parseLoop, h8, hbad, hshort, hshort', Prod.ext_iff] at hp
          · rintro ⟨hc, -⟩
            simp [cParseLoop, h8, hshort, hshort', Prod.ext_iff] at hc
        · have hm0len :
              ((rest.drop 8).take (leVal (rest.take 8))).length
                = leVal (rest.take 8) := by
            rw [List.length_take]
            omega
          have hrecLen :
              ((rest.drop 8).drop (leVal (rest.take 8))).length ≤ n := by
            simp only [List.length_drop]
            simp only [List.length_cons] at h
            omega
          by_cases hbad : leVal (rest.take 8) = 0 ∨
              MAX_MODULE_SIZE < leVal (rest.take 8)
          · constructor
            · intro hp
              simp [parseLoop, h8, hbad, Prod.ext_iff] at hp
            · rintro ⟨hc, hv⟩
              exfalso
              simp only [cParseLoop, if_neg h8, if_neg hshort,
                List.nil_append] at hc
              rw [cParseLoop_shift] at hc
              by_cases hres : (cParseLoop
                  ((rest.drop 8).drop (leVal (rest.take 8))) []).2 = true
              · rw [if_pos hres] at hc
                have hmem :
                    (⟨flag != 0,
                      (rest.drop 8).take (leVal (rest.take 8))⟩ : Module) ∈ ms := by
                  have hfst := congrArg Prod.fst hc
                  simp only at hfst
                  rw [← hfst]
                  simp
                have hval := hv _ hmem
                simp only [hm0len] at hval
                omega
              · rw [if_neg hres] at hc
                simp [Prod.ext_iff] at hc
          · -- both parsers consume the record; tie the recursions together
            have eP : parseLoop (flag :: rest) [] =
                ((⟨flag != 0, (rest.drop 8).take (leVal (rest.take 8))⟩ : Module) ::
                  (parseLoop ((rest.drop 8).drop (leVal (rest.take 8))) []).1,
                 (parseLoop ((rest.drop 8).drop (leVal (rest.take 8))) []).2) := by
              simp only [parseLoop, if_neg h8, if_neg hbad, if_neg hshort,
                List.nil_append]
              rw [parseLoop_shift]
              simp
            have eC : cParseLoop (flag :: rest) [] =
                (if (cParseLoop ((rest.drop 8).drop (leVal (rest.take 8))) []).2 = true
                 then ((⟨flag != 0, (rest.drop 8).take (leVal (rest.take 8))⟩ : Module) ::
                    (cParseLoop ((rest.drop 8).drop (leVal (rest.take 8))) []).1, true)
                 else ([], false)) := by
              simp only [cParseLoop, if_neg h8, if_neg hshort, List.nil_append]
              rw [cParseLoop_shift]
              by_cases hres : (cParseLoop
                  ((rest.drop 8).drop (leVal (rest.take 8))) []).2 = true
              · rw [if_pos hres, if_pos hres]
                simp
              · rw [if_neg hres, if_neg hres]
            rw [eP, eC]
            constructor
            · intro hp
              have hms : ms =
                  (⟨flag != 0, (rest.drop 8).take (leVal (rest.take 8))⟩ : Module) ::
                    (parseLoop ((rest.drop 8).drop (leVal (rest.take 8))) []).1 := by
                have := congrArg Prod.fst hp
                simpa using this.symm
              have hok : (parseLoop ((rest.drop 8).drop (leVal (rest.take 8))) []).2
                  = ParseResult.ok := by
                have := congrArg Prod.snd hp
                simpa using this
              have hrec := (ih ((rest.drop 8).drop (leVal (rest.take 8))) hrecLen
                (parseLoop ((rest.drop 8).drop (leVal (rest.take 8))) []).1).mp
                (by rw [← hok])
              refine ⟨?_, ?_⟩
              · rw [hrec.1, if_pos rfl]
                rw [hms]
              · intro m hm
                rw [hms] at hm
                rcases List.mem_cons.mp hm with hm | hm
                · subst hm
                  simp only [hm0len]
                  omega
                · exact hrec.2 m hm
            · rintro ⟨hc, hv⟩
              by_cases hres : (cParseLoop
                  ((rest.drop 8).drop (leVal (rest.take 8))) []).2 = true
              · rw [if_pos hres] at hc
                have hms : ms =
                    (⟨flag != 0, (rest.drop 8).take (leVal (rest.take 8))⟩ : Module) ::
                      (cParseLoop ((rest.drop 8).drop (leVal (rest.take 8))) []).1 := by
                  have := congrArg Prod.fst hc
                  simpa using this.symm
                have hvtail : ∀ m ∈
                    (cParseLoop ((rest.drop 8).drop (leVal (rest.take 8))) []).1,
                    0 < m.data.length ∧ m.data.length ≤ MAX_MODULE_SIZE := by
                  intro m hm
                  exact hv m (by rw [hms]; exact List.mem_cons_of_mem _ hm)
                have hrec := (ih ((rest.drop 8).drop (leVal (rest.take 8))) hrecLen
                  (cParseLoop ((rest.drop 8).drop (leVal (rest.take 8))) []).1).mpr
                  ⟨by rw [← hres], hvtail⟩
                rw [hrec]
                rw [hms]
              · rw [if_neg hres] at hc
                exact absurd (congrArg Prod.snd hc) (by simp)

/-! ### Claim theorems: container parsing -/

/-- C3: for every record in the container (any already-parsed accumulator
`acc`, any stream continuation `rest`), the parser rejects the record
with a format error, aborting parsing, if and only if its length field is
`0` or strictly greater than `104857600 = MAX_MODULE_SIZE` bytes; an
in-bounds record (length exactly `104857600` included) is consumed and
parsing continues. -/
theorem c3_length_validation (flag len : Nat) (payload rest : List Nat)
    (acc : List Module) (hlen : payload.length = len) (h64 : len < 2 ^ 64) :
    (len = 0 ∨ MAX_MODULE_SIZE < len →
      parseLoop (flag :: (encodeU64 len ++ (payload ++ rest))) acc
        = (acc, ParseResult.badLength)) ∧
    (0 < len → len ≤ MAX_MODULE_SIZE →
      parseLoop (flag :: (encodeU64 len ++ (payload ++ rest))) acc
        = parseLoop rest (acc ++ [⟨flag != 0, payload⟩])) := by
  constructor
  · intro hbad
    have h8 : ¬ (encodeU64 len ++ (payload ++ rest)).length < 8 := by
      simp [encodeU64]
    have hval : leVal ((encodeU64 len ++ (payload ++ rest)).take 8) = len := by
      rw [List.take_left' (encodeU64_length len), leVal_encodeU64,
        Nat.mod_eq_of_lt h64]
    simp only [parseLoop, if_neg h8, hval, if_pos hbad]
  · intro hpos hmax
    exact parseLoop_record_step flag len payload rest acc hlen h64 hpos hmax

theorem c3_length_validation_witness :
    ((5 : Nat) = 0 ∨ MAX_MODULE_SIZE < 5 →
      parseLoop (1 :: (encodeU64 5 ++ ([2, 3, 4, 5, 6] ++ []))) []
        = ([], ParseResult.badLength)) ∧
    (0 < 5 → 5 ≤ MAX_MODULE_SIZE →
      parseLoop (1 :: (encodeU64 5 ++ ([2, 3, 4, 5, 6] ++ []))) []
        = parseLoop [] ([] ++ [⟨(1 : Nat) != 0, [2, 3, 4, 5, 6]⟩])) :=
  c3_length_validation 1 5 [2, 3, 4, 5, 6] [] [] rfl (by norm_num)

/-- C4: when parsing hits a hard error mid-parse (truncated length field,
invalid length, or truncated payload, i.e. `firstRecordFails` on the
remaining bytes), the registry after the failing call contains exactly
the modules of the fully parsed records before the failing one, in
order: the parser does not roll back. -/
theorem c4_no_rollback (prev ms : List Module) (t : List Nat)
    (hval : ∀ m ∈ ms, 0 < m.data.length ∧ m.data.length ≤ MAX_MODULE_SIZE)
    (hbad : firstRecordFails t = true) :
    (loadModulesFromFile (some (encodeModules ms ++ t)) prev).1 = ms ∧
    (loadModulesFromFile (some (encodeModules ms ++ t)) prev).2
      ≠ ParseResult.ok := by
  have hload : loadModulesFromFile (some (encodeModules ms ++ t)) prev
      = parseLoop t ms := by
    show parseLoop (encodeModules ms ++ t) [] = parseLoop t ms
    rw [parseLoop_encodeModules ms t [] hval]
    simp
  rw [hload]
  cases t with
  | nil => simp [firstRecordFails] at hbad
  | cons f rest =>
    simp only [firstRecordFails] at hbad
    by_cases h8 : rest.length < 8
    · simp [parseLoop, h8]
    · by_cases hb : leVal (rest.take 8) = 0 ∨ MAX_MODULE_SIZE < leVal (rest.take 8)
      · simp [parseLoop, h8, hb]
      · have hshort : (rest.drop 8).length < leVal (rest.take 8) := by
          simp only [if_neg h8, if_neg hb, decide_eq_true_eq] at hbad
          exact hbad
        have hshort' : rest.length - 8 < leVal (rest.take 8) := by
          simpa [List.length_drop] using hshort
        simp [parseLoop, h8, hb, hshort, hshort']

theorem c4_no_rollback_witness :
    ((∀ m ∈ ([⟨false, [42]⟩] : List Module),
        0 < m.data.length ∧ m.data.length ≤ MAX_MODULE_SIZE) ∧
      firstRecordFails [1, 1, 0, 0, 0, 0, 0, 0, 0] = true) ∧
    ((loadModulesFromFile
        (some (encodeModules [⟨false, [42]⟩] ++ [1, 1, 0, 0, 0, 0, 0, 0, 0]))
        [⟨false, [9]⟩]).1 = [⟨false, [42]⟩] ∧
      (loadModulesFromFile
        (some (encodeModules [⟨false, [42]⟩] ++ [1, 1, 0, 0, 0, 0, 0, 0, 0]))
        [⟨false, [9]⟩]).2 ≠ ParseResult.ok) :=
  ⟨⟨by decide, by decide⟩,
    c4_no_rollback [⟨false, [9]⟩] [⟨false, [42]⟩] [1, 1, 0, 0, 0, 0, 0, 0, 0]
      (by decide) (by decide)⟩

/-- C5 (amended): a parse call that opens its file produces a registry
independent of the previous contents (they are discarded); but when the
file cannot be opened, `loadModulesFromFile` returns before the
`modules_.clear()` call, so the previous registry contents survive. -/
theorem c5_registry_reset (bs : List Nat) (prev prev2 : List Module) :
    loadModulesFromFile (some bs) prev = loadModulesFromFile (some bs) [] ∧
    loadModulesFromFile none prev2 = (prev2, ParseResult.fileOpenError) :=
  ⟨rfl, rfl⟩

/-- C5 counterexample: calling the parser on an unopenable file leaves
the module from the earlier parse visible afterwards, refuting the claim
that every call — failing paths included — discards the previous
contents. -/
theorem c5_registry_reset_counterexample :
    loadModulesFromFile none [⟨true, [7]⟩]
      = ([⟨true, [7]⟩], ParseResult.fileOpenError) ∧
    ([⟨true, [7]⟩] : List Module) ≠ [] :=
  ⟨rfl, by decide⟩

/-- C6: serializing any sequence of modules with payload sizes in
`(0, MAX_MODULE_SIZE]` and parsing the resulting byte stream yields a
registry with the same modules — same flags, same order, byte-identical
payloads — regardless of the registry's previous contents. -/
theorem c6_roundtrip (prev ms : List Module)
    (hval : ∀ m ∈ ms, 0 < m.data.length ∧ m.data.length ≤ MAX_MODULE_SIZE) :
    loadModulesFromFile (some (encodeModules ms)) prev
      = (ms, ParseResult.ok) := by
  show parseLoop (encodeModules ms) [] = (ms, ParseResult.ok)
  have h := parseLoop_encodeModules ms [] [] hval
  rw [List.append_nil] at h
  rw [h]
  simp [parseLoop]

theorem c6_roundtrip_witness :
    (∀ m ∈ ([⟨true, [1, 2]⟩, ⟨false, [3]⟩] : List Module),
      0 < m.data.length ∧ m.data.length ≤ MAX_MODULE_SIZE) ∧
    loadModulesFromFile
        (some (encodeModules [⟨true, [1, 2]⟩, ⟨false, [3]⟩])) [⟨true, [9]⟩]
      = ([⟨true, [1, 2]⟩, ⟨false, [3]⟩], ParseResult.ok) :=
  ⟨by decide,
    c6_roundtrip [⟨true, [9]⟩] [⟨true, [1, 2]⟩, ⟨false, [3]⟩] (by decide)⟩

/-- C9 (amended): the C parser `load_all_modules` and the C++ parser
`loadModulesFromFile` agree exactly on the streams whose records all have
length in `(0, MAX_MODULE_SIZE]`: the C++ parser accepts a stream with
list `ms` iff the C parser accepts it with the same `ms` and every
payload is in bounds (the C parser performs no length validation, so it
also accepts streams the C++ parser rejects); and on a mid-parse hard
error the C parser discards all previously parsed modules (rolling back
to the empty list), unlike the C++ parser. -/
theorem c9_parser_equivalence (bs : List Nat) (ms : List Module) :
    (parseLoop bs [] = (ms, ParseResult.ok) ↔
      (cParseLoop bs [] = (ms, true) ∧
        ∀ m ∈ ms, 0 < m.data.length ∧ m.data.length ≤ MAX_MODULE_SIZE)) ∧
    ((cParseLoop bs []).2 = false → cParseLoop bs [] = ([], false)) := by
  refine ⟨parse_equiv bs ms, fun hfail => ?_⟩
  have hs := cParseLoop_shift bs []
  rw [hfail] at hs
  simpa using hs

/-- C9 counterexample: on the stream `[1, 0,0,0,0,0,0,0,0]` — one record
with flag `1` and length field `0` — the C++ parser rejects with a
format error while the C parser accepts and produces one module, so the
two parsers are not observationally equivalent; and on a valid record
followed by a truncated header the C++ parser retains the parsed module
while the C parser rolls back to the empty list. -/
theorem c9_parser_equivalence_counterexample :
    parseLoop [1, 0, 0, 0, 0, 0, 0, 0, 0] [] = ([], ParseResult.badLength) ∧
    cParseLoop [1, 0, 0, 0, 0, 0, 0, 0, 0] [] = ([⟨true, []⟩], true) ∧
    parseLoop [1, 1, 0, 0, 0, 0, 0, 0, 0, 7, 0, 5] []
      = ([⟨true, [7]⟩], ParseResult.headerTruncated) ∧
    cParseLoop [1, 1, 0, 0, 0, 0, 0, 0, 0, 7, 0, 5] [] = ([], false) := by
  refine ⟨?_, ?_, ?_, ?_⟩ <;>
    simp [parseLoop, cParseLoop, leVal, MAX_MODULE_SIZE]

/-! ### Claim theorems: exception reporting -/

/-- C2 (amended): when the pending exception value is not error-shaped,
`getExceptionStack` coerces it to a string and releases every reference,
but delivers nothing: it never invokes the structured `onJsError`
callback for it, and — contrary to the original claim — it also never
invokes the generic error callback and never writes to a diagnostic
stream; the plain exception is silently dropped. -/
theorem c2_plain_exception_dropped (jsErrCb : Bool) (d : String)
    (n m s : Option String) :
    getExceptionStack jsErrCb ⟨false, some d, n, m, s⟩ = [] := by
  simp [getExceptionStack]

/-- C2 counterexample: a pending non-error exception coercing to
`"boom"` produces no event at all — in particular not the claimed single
generic-error-callback delivery (with a registered callback) nor the
claimed diagnostic-stream write (without one). -/
theorem c2_plain_exception_counterexample :
    getExceptionStack true ⟨false, some "boom", none, none, none⟩ = [] ∧
    getExceptionStack false ⟨false, some "boom", none, none, none⟩ = [] :=
  ⟨rfl, rfl⟩

/-! ### Claim theorems: worker context factory -/

/-- The payloads passed to bytecode evaluation, in order, extracted from
an event trace. -/
def evalsOf : List Event → List (List Nat)
  | [] => []
  | Event.evalBinary d _ :: t => d :: evalsOf t
  | Event.errorCb _ :: t => evalsOf t
  | Event.stderrWrite _ :: t => evalsOf t
  | Event.jsErrorCb _ _ _ :: t => evalsOf t
  | Event.parseHeaderErr :: t => evalsOf t
  | Event.parseBadLenErr :: t => evalsOf t
  | Event.parseDataErr :: t => evalsOf t
  | Event.newRuntime :: t => evalsOf t
  | Event.afterRuntimeCreateCb :: t => evalsOf t
  | Event.initHandlers :: t => evalsOf t
  | Event.registerWorkerCb :: t => evalsOf t
  | Event.setModuleLoader :: t => evalsOf t
  | Event.newContext :: t => evalsOf t
  | Event.afterContextCreateCb :: t => evalsOf t
  | Event.addHelpers :: t => evalsOf t
  | Event.evalSource _ :: t => evalsOf t
  | Event.eventLoop :: t => evalsOf t
  | Event.afterExecuteCb :: t => evalsOf t
  | Event.beforeReleaseCb :: t => evalsOf t
  | Event.dumpError :: t => evalsOf t
  | Event.freeHandlers :: t => evalsOf t
  | Event.freeContext :: t => evalsOf t
  | Event.freeRuntime :: t => evalsOf t

theorem evalsOf_append (l t : List Event) :
    evalsOf (l ++ t) = evalsOf l ++ evalsOf t := by
  induction l with
  | nil => simp [evalsOf]
  | cons e l ih => cases e <;> simp [evalsOf, ih]

theorem evalsOf_mapEval (l : List Module) :
    evalsOf (l.map (fun m => Event.evalBinary m.data true))
      = l.map (fun m => m.data) := by
  induction l with
  | nil => simp [evalsOf]
  | cons m l ih => simp [evalsOf, ih]

/-- C7: for a frozen registry in BytecodeContainer mode, the worker
context factory evaluates exactly the preload-flagged modules, in
registry order, with the `afterContextCreate` hook firing after the
preloads complete; the trace is a pure function of the registry, so it
is identical in the main-context and in the worker-context invocation.
In particular on the registry `[{preload,A},{entry,B},{preload,C}]` the
evaluated payload sequence is `[A, C]` — never `B`. -/
theorem c7_preload_replay (ms : List Module) (accCb : Bool)
    (A B C : List Nat) :
    createCustomContextTrace true ExecutionMode.BINARY ms true
      = Event.newContext ::
          ((ms.filter (fun m => m.load_only)).map
              (fun m => Event.evalBinary m.data true)
            ++ [Event.afterContextCreateCb]) ∧
    evalsOf (createCustomContextTrace true ExecutionMode.BINARY ms accCb)
      = (ms.filter (fun m => m.load_only)).map (fun m => m.data) ∧
    evalsOf (createCustomContextTrace true ExecutionMode.BINARY
        [⟨true, A⟩, ⟨false, B⟩, ⟨true, C⟩] accCb) = [A, C] := by
  refine ⟨by simp [createCustomContextTrace], ?_, ?_⟩
  · cases accCb <;>
      simp [createCustomContextTrace, evalsOf, evalsOf_append, evalsOf_mapEval]
  · cases accCb <;>
      simp [createCustomContextTrace, evalsOf, evalsOf_append, evalsOf_mapEval,
        List.filter]

/-! ### Trace membership helpers -/

theorem registerWorkerCb_notin_reportError (b : Bool) (t : ErrTag) :
    Event.registerWorkerCb ∉ reportError b t := by
  cases b <;> simp [reportError]

theorem registerWorkerCb_notin_getExceptionStack (b : Bool) (exc : ExcValue) :
    Event.registerWorkerCb ∉ getExceptionStack b exc := by
  rcases hd : exc.display with _ | d <;> simp [getExceptionStack, hd]

theorem registerWorkerCb_notin_loadEvents (b : Bool) (f : Option (List Nat)) :
    Event.registerWorkerCb ∉ loadEvents b f := by
  cases f with
  | none => exact registerWorkerCb_notin_reportError b ErrTag.fileOpen
  | some bs =>
    unfold loadEvents
    rcases hres : (parseLoop bs []).2 <;> simp [hres]

theorem registerWorkerCb_notin_createTrace (c : Bool) (mode : ExecutionMode)
    (ms : List Module) (cb : Bool) :
    Event.registerWorkerCb ∉ createCustomContextTrace c mode ms cb := by
  intro hmem
  unfold createCustomContextTrace at hmem
  rcases List.mem_cons.mp hmem with hc | hc
  · exact Event.noConfusion hc
  · split_ifs at hc <;> simp [List.mem_append] at hc

theorem registerWorkerCb_notin_sourceEvalEvents (jb : Bool)
    (ed : Option (List Nat)) (he hp : Bool) (exc : ExcValue) :
    Event.registerWorkerCb ∉ sourceEvalEvents jb ed he hp exc := by
  intro hmem
  unfold sourceEvalEvents at hmem
  rcases List.mem_cons.mp hmem with hc | hc
  · exact Event.noConfusion hc
  · split_ifs at hc
    · exact registerWorkerCb_notin_getExceptionStack jb exc hc
    · exact registerWorkerCb_notin_getExceptionStack jb exc hc
    · exact List.not_mem_nil _ hc

theorem registerWorkerCb_notin_binaryEvalEvents (eb jb : Bool)
    (evalBinOk : List Nat → Bool) (exc : ExcValue) (ms : List Module) :
    Event.registerWorkerCb ∉ binaryEvalEvents eb jb evalBinOk exc ms := by
  intro hmem
  unfold binaryEvalEvents at hmem
  rcases List.mem_append.mp hmem with hmem | hmem
  · obtain ⟨l, hl, hel⟩ := List.mem_flatten.mp hmem
    obtain ⟨m, hm, rfl⟩ := List.mem_map.mp hl
    rcases List.mem_cons.mp hel with hc | hc
    · exact Event.noConfusion hc
    · by_cases hok : evalBinOk m.data
      · simp [hok] at hc
      · rw [if_neg hok] at hc
        exact registerWorkerCb_notin_getExceptionStack jb exc hc
  · by_cases hent : ms.filter (fun m => !m.load_only) = []
    · rw [if_pos hent] at hmem
      exact registerWorkerCb_notin_reportError eb ErrTag.noEntry hmem
    · rw [if_neg hent] at hmem
      exact List.not_mem_nil _ hmem

theorem registerWorkerCb_notin_destructorTrace (br hc hr : Bool) :
    Event.registerWorkerCb ∉ destructorTrace br hc hr := by
  unfold destructorTrace
  split_ifs <;> simp

theorem errorCb_notin_getExceptionStack (b : Bool) (exc : ExcValue)
    (t : ErrTag) : Event.errorCb t ∉ getExceptionStack b exc := by
  rcases hd : exc.display with _ | d <;> simp [getExceptionStack, hd]

theorem stderrWrite_notin_getExceptionStack (b : Bool) (exc : ExcValue)
    (t : ErrTag) : Event.stderrWrite t ∉ getExceptionStack b exc := by
  rcases hd : exc.display with _ | d <;> simp [getExceptionStack, hd]

theorem errorCb_notin_sourceEvalEvents (jb : Bool) (ed : Option (List Nat))
    (he hp : Bool) (exc : ExcValue) (t : ErrTag) :
    Event.errorCb t ∉ sourceEvalEvents jb ed he hp exc := by
  intro hmem
  unfold sourceEvalEvents at hmem
  rcases List.mem_cons.mp hmem with hc | hc
  · exact Event.noConfusion hc
  · split_ifs at hc
    · exact errorCb_notin_getExceptionStack jb exc t hc
    · exact errorCb_notin_getExceptionStack jb exc t hc
    · exact List.not_mem_nil _ hc

theorem stderrWrite_notin_sourceEvalEvents (jb : Bool) (ed : Option (List Nat))
    (he hp : Bool) (exc : ExcValue) (t : ErrTag) :
    Event.stderrWrite t ∉ sourceEvalEvents jb ed he hp exc := by
  intro hmem
  unfold sourceEvalEvents at hmem
  rcases List.mem_cons.mp hmem with hc | hc
  · exact Event.noConfusion hc
  · split_ifs at hc
    · exact stderrWrite_notin_getExceptionStack jb exc t hc
    · exact stderrWrite_notin_getExceptionStack jb exc t hc
    · exact List.not_mem_nil _ hc

theorem errorCb_notin_createTrace (c : Bool) (mode : ExecutionMode)
    (ms : List Module) (cb : Bool) (t : ErrTag) :
    Event.errorCb t ∉ createCustomContextTrace c mode ms cb := by
  intro hmem
  unfold createCustomContextTrace at hmem
  rcases List.mem_cons.mp hmem with hc | hc
  · exact Event.noConfusion hc
  · split_ifs at hc <;> simp [List.mem_append] at hc

theorem stderrWrite_notin_createTrace (c : Bool) (mode : ExecutionMode)
    (ms : List Module) (cb : Bool) (t : ErrTag) :
    Event.stderrWrite t ∉ createCustomContextTrace c mode ms cb := by
  intro hmem
  unfold createCustomContextTrace at hmem
  rcases List.mem_cons.mp hmem with hc | hc
  · exact Event.noConfusion hc
  · split_ifs at hc <;> simp [List.mem_append] at hc

/-! ### Claim theorems: worker-callback registration (C1) -/

/-- C1: the claim fails on the code — in `execute()` the
`js_std_set_worker_new_context_func(workerContextCallback, this)` call
(step 2 of the source's own numbered protocol) is commented out, so no
run of `execute()` (and subsequent destruction) ever registers the
worker-spawn callback with the engine: no `registerWorkerCb` event
occurs in any full-run trace, for any configuration or engine
behaviour.  By contrast the C driver `main` in `qjs_bc.c`, which the
class documents itself as wrapping, does register `JS_NewCustomContext`
before creating the main context, as the second conjunct shows. -/
theorem c1_worker_callback_not_registered (mode : ExecutionMode)
    (entryData : Option (List Nat)) (prev : List Module)
    (rtOk ctxOk hookRC hookCC hookAE hookBR errCb jsErrCb : Bool)
    (evalBinOk : List Nat → Bool) (hasExc promiseRej : Bool) (exc : ExcValue)
    (modules : List Module) (ctxOk2 : Bool) (evalBinOk2 : List Nat → Bool)
    (loopRet : Int) :
    Event.registerWorkerCb ∉
      fullRunTrace mode entryData prev rtOk ctxOk hookRC hookCC hookAE hookBR
        errCb jsErrCb evalBinOk hasExc promiseRej exc ∧
    List.Sublist [Event.registerWorkerCb, Event.newContext]
      (cMainTrace true modules true ctxOk2 evalBinOk2 loopRet) := by
  constructor
  · intro hmem
    unfold fullRunTrace executeTrace at hmem
    split_ifs at hmem <;>
      simp [registerWorkerCb_notin_loadEvents, registerWorkerCb_notin_reportError,
        registerWorkerCb_notin_createTrace, registerWorkerCb_notin_sourceEvalEvents,
        registerWorkerCb_notin_binaryEvalEvents,
        registerWorkerCb_notin_destructorTrace, List.mem_append] at hmem
  · unfold cMainTrace cNewCustomContextTrace
    simp only [Bool.not_true, Bool.false_eq_true, if_false, if_true,
      List.cons_append, List.append_assoc]
    refine List.Sublist.cons _ ?_
    refine List.Sublist.cons₂ _ ?_
    refine List.Sublist.cons _ (List.Sublist.cons _ ?_)
    refine List.Sublist.cons₂ _ ?_
    exact List.nil_sublist _

/-! ### Claim theorems: hook ordering (C8) and SourceText entry (C10) -/

/-- Skipping an arbitrary prefix preserves sublists. -/
theorem sublist_skip {α : Type} (xs : List α) {l₁ l₂ : List α}
    (h : List.Sublist l₁ l₂) : List.Sublist l₁ (xs ++ l₂) :=
  h.trans (List.sublist_append_right xs l₂)

/-- The hook/teardown chain is an ordered sublist of any full-run trace
of the given shape (arbitrary load events, preload evaluations and
entry-evaluation events in between). -/
theorem hook_order_aux (loadEvs pre main : List Event) :
    List.Sublist
      [Event.afterRuntimeCreateCb, Event.afterContextCreateCb, Event.eventLoop,
       Event.afterExecuteCb, Event.beforeReleaseCb, Event.freeContext,
       Event.freeRuntime]
      (loadEvs ++ Event.newRuntime ::
        ([Event.afterRuntimeCreateCb] ++ [Event.initHandlers, Event.setModuleLoader]
          ++ (Event.newContext :: (pre ++ [Event.afterContextCreateCb]))
          ++ (main ++ [Event.eventLoop] ++ [Event.afterExecuteCb]))
        ++ ([Event.beforeReleaseCb] ++ [Event.freeContext] ++ [Event.freeRuntime])) := by
  simp only [List.append_assoc, List.cons_append, List.singleton_append,
    List.nil_append]
  refine sublist_skip loadEvs ?_
  refine List.Sublist.cons _ ?_
  refine List.Sublist.cons₂ _ ?_
  refine List.Sublist.cons _ (List.Sublist.cons _ (List.Sublist.cons _ ?_))
  refine sublist_skip pre ?_
  refine List.Sublist.cons₂ _ ?_
  refine sublist_skip main ?_
  refine List.Sublist.cons₂ _ ?_
  refine List.Sublist.cons₂ _ ?_
  refine List.Sublist.cons₂ _ ?_
  refine List.Sublist.cons₂ _ ?_
  refine List.Sublist.cons₂ _ ?_
  exact List.nil_sublist _

/-- C8: on every successful run (runtime and context creation succeed)
with all hooks registered, the hooks fire in the order
`afterRuntimeCreate`, `afterContextCreate` (main), then — after the
event loop drains — `afterExecute`, then `beforeRelease`; and
`beforeRelease` precedes the context-handle release, which precedes the
runtime-handle release. -/
theorem c8_hook_order (mode : ExecutionMode) (entryData : Option (List Nat))
    (prev : List Module) (errCb jsErrCb : Bool) (evalBinOk : List Nat → Bool)
    (hasExc promiseRej : Bool) (exc : ExcValue) :
    List.Sublist
      [Event.afterRuntimeCreateCb, Event.afterContextCreateCb, Event.eventLoop,
       Event.afterExecuteCb, Event.beforeReleaseCb, Event.freeContext,
       Event.freeRuntime]
      (fullRunTrace mode entryData prev true true true true true true errCb
        jsErrCb evalBinOk hasExc promiseRej exc) := by
  cases mode with
  | BINARY =>
    exact hook_order_aux (loadEvents errCb entryData)
      ((((loadModulesFromFile entryData prev).1).filter
          (fun m => m.load_only)).map (fun m => Event.evalBinary m.data true))
      (binaryEvalEvents errCb jsErrCb evalBinOk exc
        (loadModulesFromFile entryData prev).1)
  | JS =>
    exact hook_order_aux []
      []
      (sourceEvalEvents jsErrCb entryData hasExc promiseRej exc)

/-- C10: in SourceText mode with a successful runtime/context creation,
an unopenable entry file and an empty entry file behave identically:
`readFileToString` returns the empty string on both paths, `execute()`
evaluates the empty string as the entry module and then proceeds to
event-loop draining, and no FileOpenError is reported (neither through
the generic error callback nor on the diagnostic stream). -/
theorem c10_sourcetext_empty_entry (prev : List Module)
    (hookRC hookCC hookAE errCb jsErrCb : Bool) (evalBinOk : List Nat → Bool)
    (hasExc promiseRej : Bool) (exc : ExcValue) (entryData : Option (List Nat))
    (hentry : entryData = none ∨ entryData = some []) :
    readFileToString entryData = [] ∧
    List.Sublist [Event.evalSource [], Event.eventLoop]
      (executeTrace ExecutionMode.JS entryData prev true true hookRC hookCC
        hookAE errCb jsErrCb evalBinOk hasExc promiseRej exc) ∧
    Event.errorCb ErrTag.fileOpen ∉
      executeTrace ExecutionMode.JS entryData prev true true hookRC hookCC
        hookAE errCb jsErrCb evalBinOk hasExc promiseRej exc ∧
    Event.stderrWrite ErrTag.fileOpen ∉
      executeTrace ExecutionMode.JS entryData prev true true hookRC hookCC
        hookAE errCb jsErrCb evalBinOk hasExc promiseRej exc := by
  have hread : readFileToString entryData = [] := by
    rcases hentry with rfl | rfl <;> simp [readFileToString]
  refine ⟨hread, ?_, ?_, ?_⟩
  · show List.Sublist [Event.evalSource [], Event.eventLoop]
      ([] ++ Event.newRuntime ::
        ((if hookRC then [Event.afterRuntimeCreateCb] else [])
          ++ [Event.initHandlers, Event.setModuleLoader]
          ++ (Event.newContext ::
              ([] ++ (if hookCC then [Event.afterContextCreateCb] else [])))
          ++ ((Event.evalSource (readFileToString entryData) ::
                (if hasExc then getExceptionStack jsErrCb exc
                 else if promiseRej then getExceptionStack jsErrCb exc else []))
              ++ [Event.eventLoop]
              ++ (if hookAE then [Event.afterExecuteCb] else []))))
    rw [hread]
    simp only [List.append_assoc, List.cons_append, List.singleton_append,
      List.nil_append]
    refine List.Sublist.cons _ ?_
    refine sublist_skip _ ?_
    refine List.Sublist.cons _ (List.Sublist.cons _ (List.Sublist.cons _ ?_))
    refine sublist_skip _ ?_
    refine List.Sublist.cons₂ _ ?_
    refine sublist_skip _ ?_
    refine List.Sublist.cons₂ _ ?_
    exact List.nil_sublist _
  · intro hmem
    unfold executeTrace at hmem
    split_ifs at hmem <;>
      first
        | exact ‹False›
        | exact ExecutionMode.noConfusion ‹ExecutionMode.JS = ExecutionMode.BINARY›
        | exact absurd rfl ‹¬ExecutionMode.JS = ExecutionMode.JS›
        | exact absurd rfl ‹¬true = true›
        | simp [errorCb_notin_sourceEvalEvents, errorCb_notin_createTrace,
            List.mem_append] at hmem
  · intro hmem
    unfold executeTrace at hmem
    split_ifs at hmem <;>
      first
        | exact ‹False›
        | exact ExecutionMode.noConfusion ‹ExecutionMode.JS = ExecutionMode.BINARY›
        | exact absurd rfl ‹¬ExecutionMode.JS = ExecutionMode.JS›
        | exact absurd rfl ‹¬true = true›
        | simp [stderrWrite_notin_sourceEvalEvents, stderrWrite_notin_createTrace,
            List.mem_append] at hmem

theorem c10_sourcetext_empty_entry_witness :
    ((none : Option (List Nat)) = none ∨ (none : Option (List Nat)) = some []) ∧
    (readFileToString none = [] ∧
      List.Sublist [Event.evalSource [], Event.eventLoop]
        (executeTrace ExecutionMode.JS none [] true true true true
          true true true (fun _ => true) false false
          ⟨false, none, none, none, none⟩) ∧
      Event.errorCb ErrTag.fileOpen ∉
        executeTrace ExecutionMode.JS none [] true true true true
          true true true (fun _ => true) false false
          ⟨false, none, none, none, none⟩ ∧
      Event.stderrWrite ErrTag.fileOpen ∉
        executeTrace ExecutionMode.JS none [] true true true true
          true true true (fun _ => true) false false
          ⟨false, none, none, none, none⟩) :=
  ⟨Or.inl rfl,
    c10_sourcetext_empty_entry [] true true true true true (fun _ => true)
      false false ⟨false, none, none, none, none⟩ none (Or.inl rfl)⟩

end Qjs
